import Mathlib

/-!
Shallow embedding of the Perlin noise generator in
`include/easy/dsp/random/noise/perlin_noise_generator.hpp` (namespace
`easy::dsp::random`).

The `value_type` arithmetic is modelled over `ℚ`; the draw produced by the
`std::uniform_int_distribution<T>(0, 511)` is a natural number `n ≤ 511`,
cast into `ℚ` where it enters the arithmetic pipeline.  The `& 0xFF` mask
on the `std::int64_t` cast of the draw is `Int.land`; the fallible table
subscripts are modelled with `List.get?`, so `operator()` returns an
`Option ℚ` that is `none` exactly when a subscript would be out of bounds.
-/

set_option maxRecDepth 8000

namespace EDSP

/-- `fade(t) = t * t * t * (t * (t * 6 - 15) + 10)` from the source. -/
def fade (t : ℚ) : ℚ := t * t * t * (t * (t * 6 - 15) + 10)

/-- `lerp(t, a, b) = a + t * (b - a)` from the source. -/
def lerp (t a b : ℚ) : ℚ := a + t * (b - a)

/-- `grad(hash, x) = (hash & 1) == 0 ? x : -x` from the source. -/
def grad (hash : ℤ) (x : ℚ) : ℚ := if Int.land hash 1 = 0 then x else -x

/-- The 256 integers written in the initializer of the static
`std::array<T, 512> permutation` in the source. -/
def permutationInit : List ℤ := [
    151, 160, 137, 91, 90, 15, 131, 13, 201, 95, 96, 53, 194, 233, 7, 225,
    140, 36, 103, 30, 69, 142, 8, 99, 37, 240, 21, 10, 23, 190, 6, 148,
    247, 120, 234, 75, 0, 26, 197, 62, 94, 252, 219, 203, 117, 35, 11, 32,
    57, 177, 33, 88, 237, 149, 56, 87, 174, 20, 125, 136, 171, 168, 68, 175,
    74, 165, 71, 134, 139, 48, 27, 166, 77, 146, 158, 231, 83, 111, 229, 122,
    60, 211, 133, 230, 220, 105, 92, 41, 55, 46, 245, 40, 244, 102, 143, 54,
    65, 25, 63, 161, 1, 216, 80, 73, 209, 76, 132, 187, 208, 89, 18, 169,
    200, 196, 135, 130, 116, 188, 159, 86, 164, 100, 109, 198, 173, 186, 3, 64,
    52, 217, 226, 250, 124, 123, 5, 202, 38, 147, 118, 126, 255, 82, 85, 212,
    207, 206, 59, 227, 47, 16, 58, 17, 182, 189, 28, 42, 223, 183, 170, 213,
    119, 248, 152, 2, 44, 154, 163, 70, 221, 153, 101, 155, 167, 43, 172, 9,
    129, 22, 39, 253, 19, 98, 108, 110, 79, 113, 224, 232, 178, 185, 112, 104,
    218, 246, 97, 228, 251, 34, 242, 193, 238, 210, 144, 12, 191, 179, 162, 241,
    81, 51, 145, 235, 249, 14, 239, 107, 49, 192, 214, 31, 181, 199, 106, 157,
    184, 84, 204, 176, 115, 121, 50, 45, 127, 4, 150, 254, 138, 236, 205, 93,
    222, 114, 67, 29, 24, 72, 243, 141, 128, 195, 78, 66, 215, 61, 156, 180]

/-- The static member `std::array<T, 512> permutation`.  Its initializer
lists only the 256 values of `permutationInit`; C++ aggregate
initialization value-initializes the remaining 256 elements, so the second
half of the array is all zeros. -/
def permutation : List ℤ := permutationInit ++ List.replicate 256 0

/-- `static_cast<std::int64_t>` of a real draw: truncation toward zero. -/
def truncToInt (r : ℚ) : ℤ := if 0 ≤ r then ⌊r⌋ else ⌈r⌉

/-- `index = static_cast<std::int64_t>(random_value) & 0xFF` from `operator()`. -/
def indexOf (r : ℚ) : ℤ := Int.land (truncToInt r) 0xFF

/-- `floor_value = random_value - std::floor(random_value)` from `operator()`. -/
def floorValue (r : ℚ) : ℚ := r - ⌊r⌋

/-- The body of `perlin_noise_generator::operator()` applied to the draw
`r` obtained from the distribution: the two table subscripts `index` and
`index + 1`, then `lerp(fade_value, grad(permutation[index], floor_value),
grad(permutation[index + 1], floor_value - 1)) * 2`.  A subscript outside
the 512-entry table would be undefined behaviour in C++, hence `Option`. -/
def noiseValue? (r : ℚ) : Option ℚ :=
  match permutation.get? (indexOf r).toNat, permutation.get? ((indexOf r).toNat + 1) with
  | some h0, some h1 =>
    some (lerp (fade r) (grad h0 (floorValue r)) (grad h1 (floorValue r - 1)) * 2)
  | _, _ => none

/-- One `operator()` call of a sampler whose engine-plus-distribution is the
deterministic draw function `draw` over engine states `E`: it produces one
sample and the advanced engine state. -/
def perlinStep {E : Type} (draw : E → ℕ × E) (e : E) : Option ℚ × E :=
  (noiseValue? ((draw e).1 : ℚ), (draw e).2)

/-- The sequence of the first `k` samples produced by a sampler started in
engine state `e`. -/
def perlinSeq {E : Type} (draw : E → ℕ × E) : E → ℕ → List (Option ℚ)
  | _, 0 => []
  | e, k + 1 => (perlinStep draw e).1 :: perlinSeq draw (perlinStep draw e).2 k

/-- A concrete deterministic engine on state `ℕ`: a linear congruential
step whose output is reduced modulo 512 by the distribution.  Used to
instantiate theorems that quantify over engines. -/
def lcgDraw (s : ℕ) : ℕ × ℕ := ((75 * s + 74) % 512, 75 * s + 74)

/-! ### Helper lemmas -/

theorem land_zero (x : ℤ) : Int.land x 0 = 0 := by
  cases x with
  | ofNat m =>
    show ((m &&& 0 : ℕ) : ℤ) = 0
    simp
  | negSucc m =>
    show ((Nat.ldiff 0 m : ℕ) : ℤ) = 0
    rw [Nat.ldiff, Nat.bitwise_zero_left]
    simp

theorem land_one_eq_emod (h : ℤ) : Int.land h 1 = h % 2 := by
  have hd := Int.bodd_add_div2 h
  conv_lhs => rw [← Int.bit_decomp h, show (1 : ℤ) = Int.bit true 0 from rfl, Int.land_bit]
  rw [Bool.and_true, land_zero, Int.bit_val, mul_zero, zero_add]
  cases hb : Int.bodd h <;> rw [hb] at hd <;> simp at hd ⊢ <;> omega

theorem grad_eq_emod (h : ℤ) (x : ℚ) : grad h x = if h % 2 = 0 then x else -x := by
  rw [grad, land_one_eq_emod]

theorem grad_zero_arg (h : ℤ) : grad h 0 = 0 := by
  rw [grad]
  split <;> simp

theorem natCast_land (m n : ℕ) : Int.land (m : ℤ) (n : ℤ) = ((m &&& n : ℕ) : ℤ) := rfl

theorem permutation_length : permutation.length = 512 := rfl

theorem truncToInt_natCast (n : ℕ) : truncToInt (n : ℚ) = n := by
  rw [truncToInt, if_pos (by positivity : (0 : ℚ) ≤ n), Int.floor_natCast]

theorem indexOf_natCast (n : ℕ) : indexOf (n : ℚ) = ((n % 256 : ℕ) : ℤ) := by
  have hmask : n &&& 255 = n % 256 := by
    simpa using Nat.and_pow_two_sub_one_eq_mod n 8
  rw [indexOf, truncToInt_natCast, show (0xFF : ℤ) = ((255 : ℕ) : ℤ) from rfl,
    natCast_land, hmask]

theorem floorValue_natCast (n : ℕ) : floorValue (n : ℚ) = 0 := by
  rw [floorValue, Int.floor_natCast]
  simp

theorem perm_get?_eq {i : ℕ} (h : i < 512) :
    permutation.get? i = some (permutation.getD i 0) := by
  have hl : i < permutation.length := by rw [permutation_length]; exact h
  rw [List.getD_eq_get?, List.get?_eq_get hl]
  rfl

theorem replicate_getD (n j : ℕ) : (List.replicate n (0 : ℤ)).getD j 0 = 0 := by
  induction n generalizing j with
  | zero => cases j <;> rfl
  | succ m ih =>
    cases j with
    | zero => rfl
    | succ jj => exact ih jj

theorem noiseValue_eval (n : ℕ) :
    noiseValue? (n : ℚ) =
      some (lerp (fade (n : ℚ)) (grad (permutation.getD (n % 256) 0) (floorValue (n : ℚ)))
        (grad (permutation.getD (n % 256 + 1) 0) (floorValue (n : ℚ) - 1)) * 2) := by
  have h256 : n % 256 < 256 := Nat.mod_lt _ (by norm_num)
  simp only [noiseValue?, indexOf_natCast, Int.toNat_natCast]
  rw [perm_get?_eq (by omega), perm_get?_eq (by omega)]

/-! ### Claim theorems -/

/-- C2: the spec claims the second half of the permutation table repeats the
first half.  The code disagrees: the 512-slot array is initialized with only
256 values, so `permutation[256]` is `0` while `permutation[0]` is `151`;
evaluating the embedded table at the failing position exhibits the
divergence. -/
theorem permutation_not_duplicated :
    permutation.getD 0 0 = 151 ∧ permutation.getD 256 0 = 0 ∧
      permutation.getD 256 0 ≠ permutation.getD 0 0 := by
  refine ⟨rfl, rfl, ?_⟩
  decide

/-- C9: the permutation table has 512 slots but its initializer lists only
256 values, so every element at positions 256 through 511 is
value-initialized to zero. -/
theorem permutation_second_half_zero :
    permutation.length = 512 ∧
      ∀ i : Fin 512, 256 ≤ i.val → permutation.getD i.val 0 = 0 := by
  refine ⟨permutation_length, fun i hi => ?_⟩
  have : permutation.getD i.val 0 = (List.replicate 256 (0 : ℤ)).getD (i.val - 256) 0 := by
    rw [permutation, List.getD_eq_get?, List.getD_eq_get?, List.get?_append_right (by simpa using hi)]
    rfl
  rw [this, replicate_getD]

/-- Witness for C9 at position `300`. -/
theorem permutation_second_half_zero_spot : permutation.getD 300 0 = 0 :=
  permutation_second_half_zero.2 ⟨300, by norm_num⟩ (by norm_num)

/-- C4: `grad(h, x)` returns `x` when `h` is even and `-x` when `h` is odd,
for every integer `h` and every rational `x`. -/
theorem grad_parity (h : ℤ) (x : ℚ) :
    (Even h → grad h x = x) ∧ (Odd h → grad h x = -x) := by
  rw [grad_eq_emod]
  constructor
  · intro he
    rw [Int.even_iff] at he
    rw [if_pos he]
  · intro ho
    rw [Int.odd_iff] at ho
    rw [if_neg (by omega)]

/-- Witness for C4 at `h = 2` and `h = 3`, `x = 5`. -/
theorem grad_parity_spot : grad 2 (5 : ℚ) = 5 ∧ grad 3 (5 : ℚ) = -5 :=
  ⟨(grad_parity 2 5).1 (by decide), (grad_parity 3 5).2 (by decide)⟩

/-- C6: `floor_value` is computed as `r - floor(r)`, and on the
integer-valued draws the distribution produces it is zero for every draw. -/
theorem floorValue_integral_draws :
    (∀ r : ℚ, floorValue r = r - ⌊r⌋) ∧ (∀ n : ℕ, n ≤ 511 → floorValue (n : ℚ) = 0) :=
  ⟨fun _ => rfl, fun n _ => floorValue_natCast n⟩

/-- Witness for C6 at the draw `n = 42`. -/
theorem floorValue_integral_draws_spot : floorValue ((42 : ℕ) : ℚ) = 0 :=
  floorValue_integral_draws.2 42 (by norm_num)

/-- C5: `fade` is the quintic `t^3 * (t * (6t - 15) + 10)`, and in
`operator()` the fade value fed to `lerp` is `fade` of the raw draw itself,
not of the fractional part `floor_value`. -/
theorem fade_quintic_applied_to_raw_draw :
    (∀ t : ℚ, fade t = t ^ 3 * (t * (6 * t - 15) + 10)) ∧
    (∀ n : ℕ, n ≤ 511 → noiseValue? (n : ℚ) =
      some (lerp (fade (n : ℚ))
        (grad (permutation.getD (n % 256) 0) (floorValue (n : ℚ)))
        (grad (permutation.getD (n % 256 + 1) 0) (floorValue (n : ℚ) - 1)) * 2)) := by
  constructor
  · intro t
    rw [fade]
    ring
  · intro n _
    exact noiseValue_eval n

/-- Witness for C5 at the draw `n = 7`. -/
theorem fade_quintic_applied_to_raw_draw_spot :
    noiseValue? ((7 : ℕ) : ℚ) =
      some (lerp (fade ((7 : ℕ) : ℚ))
        (grad (permutation.getD 7 0) (floorValue ((7 : ℕ) : ℚ)))
        (grad (permutation.getD 8 0) (floorValue ((7 : ℕ) : ℚ) - 1)) * 2) :=
  fade_quintic_applied_to_raw_draw.2 7 (by norm_num)

/-- C7: the sampling operation is deterministic in the engine state: two
samplers over the same engine type whose engines are in identical states
produce identical output sequences when queried the same number of times. -/
theorem determinism_fixed_engine {E : Type} (draw : E → ℕ × E) (e₁ e₂ : E)
    (h : e₁ = e₂) (k : ℕ) : perlinSeq draw e₁ k = perlinSeq draw e₂ k := by
  subst h
  rfl

/-- Witness for C7: a concrete deterministic engine on state `ℕ`, two
samplers started in the identical state `1`, queried three times each. -/
theorem determinism_fixed_engine_spot :
    perlinSeq lcgDraw 1 3 = perlinSeq lcgDraw 1 3 :=
  determinism_fixed_engine lcgDraw 1 1 rfl 3

/-- C1: for every draw `n` producible by the distribution over `[0, 511]`,
`operator()` returns `2 * (g0 + fadeVal * (g1 - g0))` where
`index = trunc(r) & 0xFF`, `frac = r - floor(r)`, `fadeVal = fade(r)`,
`g0 = grad(permutation[index], frac)`, `g1 = grad(permutation[index+1], frac - 1)`. -/
theorem range_property (n : ℕ) (_hn : n ≤ 511) :
    noiseValue? (n : ℚ) =
      some (2 * (grad (permutation.getD (Int.land (truncToInt (n : ℚ)) 0xFF).toNat 0)
          ((n : ℚ) - ⌊(n : ℚ)⌋) +
        fade (n : ℚ) *
          (grad (permutation.getD ((Int.land (truncToInt (n : ℚ)) 0xFF).toNat + 1) 0)
              ((n : ℚ) - ⌊(n : ℚ)⌋ - 1) -
            grad (permutation.getD (Int.land (truncToInt (n : ℚ)) 0xFF).toNat 0)
              ((n : ℚ) - ⌊(n : ℚ)⌋)))) := by
  have hidx : Int.land (truncToInt (n : ℚ)) 0xFF = ((n % 256 : ℕ) : ℤ) := indexOf_natCast n
  rw [noiseValue_eval n, hidx, Int.toNat_natCast]
  congr 1
  simp only [lerp, floorValue]
  ring

/-- Witness for C1 at the draw `n = 3`. -/
theorem range_property_spot :
    noiseValue? ((3 : ℕ) : ℚ) =
      some (2 * (grad (permutation.getD (Int.land (truncToInt ((3 : ℕ) : ℚ)) 0xFF).toNat 0)
          (((3 : ℕ) : ℚ) - ⌊((3 : ℕ) : ℚ)⌋) +
        fade ((3 : ℕ) : ℚ) *
          (grad (permutation.getD ((Int.land (truncToInt ((3 : ℕ) : ℚ)) 0xFF).toNat + 1) 0)
              (((3 : ℕ) : ℚ) - ⌊((3 : ℕ) : ℚ)⌋ - 1) -
            grad (permutation.getD (Int.land (truncToInt ((3 : ℕ) : ℚ)) 0xFF).toNat 0)
              (((3 : ℕ) : ℚ) - ⌊((3 : ℕ) : ℚ)⌋)))) :=
  range_property 3 (by norm_num)

/-- C3: for every producible draw, `index` lies in `[0, 255]`, `index + 1`
in `[1, 256]`, both are valid offsets into the 512-entry table, and the
sampling operation raises no error (never returns `none`). -/
theorem index_safety (n : ℕ) (_hn : n ≤ 511) :
    0 ≤ indexOf (n : ℚ) ∧ indexOf (n : ℚ) ≤ 255 ∧
      1 ≤ indexOf (n : ℚ) + 1 ∧ indexOf (n : ℚ) + 1 ≤ 256 ∧
      (indexOf (n : ℚ)).toNat < permutation.length ∧
      (indexOf (n : ℚ)).toNat + 1 < permutation.length ∧
      (noiseValue? (n : ℚ)).isSome = true := by
  have h256 : n % 256 < 256 := Nat.mod_lt _ (by norm_num)
  rw [indexOf_natCast, permutation_length, Int.toNat_natCast]
  refine ⟨?_, ?_, ?_, ?_, ?_, ?_, ?_⟩
  · omega
  · omega
  · omega
  · omega
  · omega
  · omega
  · rw [noiseValue_eval n]
    rfl

/-- Witness for C3 at the draw `n = 511`, the subscript pair `(255, 256)`. -/
theorem index_safety_spot : (noiseValue? ((511 : ℕ) : ℚ)).isSome = true :=
  (index_safety 511 (by norm_num)).2.2.2.2.2.2

/-- C10: on an integer-valued draw `n`, `frac = 0` forces `g0 = 0`, so the
output is `2 * fade(n)` when `permutation[index + 1]` is odd and
`-2 * fade(n)` when it is even (`index = n & 0xFF`); in particular
`permutation[index]` does not appear in either closed form. -/
theorem integral_draw_formula (n : ℕ) (_hn : n ≤ 511) :
    (permutation.getD ((Int.land (n : ℤ) 0xFF).toNat + 1) 0 % 2 = 1 →
        noiseValue? (n : ℚ) = some (2 * fade (n : ℚ))) ∧
    (permutation.getD ((Int.land (n : ℤ) 0xFF).toNat + 1) 0 % 2 = 0 →
        noiseValue? (n : ℚ) = some (-(2 * fade (n : ℚ)))) := by
  have hland : (Int.land (n : ℤ) 0xFF).toNat = n % 256 := by
    rw [show (0xFF : ℤ) = ((255 : ℕ) : ℤ) from rfl, natCast_land, Int.toNat_natCast]
    simpa using Nat.and_pow_two_sub_one_eq_mod n 8
  rw [hland, noiseValue_eval n, floorValue_natCast]
  constructor <;> intro hp
  · rw [grad_zero_arg, grad_eq_emod, if_neg (by omega)]
    congr 1
    rw [lerp]
    ring
  · rw [grad_zero_arg, grad_eq_emod, if_pos hp]
    congr 1
    rw [lerp]
    ring

/-- Witness for C10 at the draw `n = 0`: `permutation[1] = 160` is even. -/
theorem integral_draw_formula_spot :
    noiseValue? ((0 : ℕ) : ℚ) = some (-(2 * fade ((0 : ℕ) : ℚ))) :=
  (integral_draw_formula 0 (by norm_num)).2 (by decide)

/-- C8: the concrete scenario `index = 0` (table value 151, odd, `grad`
negates), `index + 1 = 1` (table value 160, even, `grad` is the identity),
`frac = 3/10` arising from the draw `r = 3/10`: `g0 = -3/10`,
`g1 = grad(160, -7/10) = -7/10`, and the produced value is exactly
`2 * (-3/10 + fade(r) * (-7/10 - (-3/10)))`. -/
theorem concrete_scenario :
    permutation.getD 0 0 = 151 ∧ permutation.getD 1 0 = 160 ∧
      grad 151 ((3 : ℚ)/10) = -((3 : ℚ)/10) ∧
      grad 160 (-((7 : ℚ)/10)) = -((7 : ℚ)/10) ∧
      noiseValue? ((3 : ℚ)/10) =
        some (2 * (-((3 : ℚ)/10) +
          fade ((3 : ℚ)/10) * (-((7 : ℚ)/10) - -((3 : ℚ)/10)))) := by
  have hfloor : ⌊(3 : ℚ)/10⌋ = 0 := by
    rw [Int.floor_eq_zero_iff]
    constructor <;> norm_num
  have hg0 : grad 151 ((3 : ℚ)/10) = -((3 : ℚ)/10) := by
    rw [grad_eq_emod]
    norm_num
  have hg1 : grad 160 (-((7 : ℚ)/10)) = -((7 : ℚ)/10) := by
    rw [grad_eq_emod]
    norm_num
  refine ⟨rfl, rfl, hg0, hg1, ?_⟩
  have hidx : (indexOf ((3 : ℚ)/10)).toNat = 0 := by
    rw [indexOf, truncToInt, if_pos (by norm_num : (0 : ℚ) ≤ 3/10), hfloor]
    rfl
  have hfv : floorValue ((3 : ℚ)/10) = (3 : ℚ)/10 := by
    rw [floorValue, hfloor]
    norm_num
  have hsub : (3 : ℚ)/10 - 1 = -((7 : ℚ)/10) := by norm_num
  simp only [noiseValue?, hidx]
  rw [show permutation.get? 0 = some 151 from rfl,
    show permutation.get? 1 = some 160 from rfl]
  simp only [hfv, hsub, hg0, hg1]
  congr 1
  rw [lerp]
  ring

end EDSP
